import Mathlib

/-!
Verification development for the AI Workflow Builder repository.

The repository's source under version control is the React frontend
(frontend/src/App.js).  The workflow execution engine (Config Schema
Validator, Module Registry, Graph Builder, Scheduler, Module Executors)
is specified in the design document but is not part of the shown source;
definitions for those components are modelled from the specification and
say so in their doc comments.  Definitions for the editor's save / load /
add-module / execute-request logic are translated directly from App.js.
-/

/-- A JSON-like configuration value: the spec's config schema admits
string, number and boolean field kinds (§3, §4.1). -/
inductive Value where
  | vStr : String → Value
  | vNum : Rat → Value
  | vBool : Bool → Value
  deriving DecidableEq, Repr

/-- Propositional equality of Except values is decidable componentwise;
used only to evaluate concrete build results in witnesses. -/
instance {ε α : Type} [DecidableEq ε] [DecidableEq α] :
    DecidableEq (Except ε α) := fun x y =>
  match x, y with
  | Except.ok a, Except.ok b =>
    if h : a = b then isTrue (by rw [h])
    else isFalse (fun hh => h (Except.ok.inj hh))
  | Except.ok _, Except.error _ => isFalse (fun hh => Except.noConfusion hh)
  | Except.error _, Except.ok _ => isFalse (fun hh => Except.noConfusion hh)
  | Except.error e, Except.error f =>
    if h : e = f then isTrue (by rw [h])
    else isFalse (fun hh => h (Except.error.inj hh))

/-- An open mapping from field names to values, as stored in a module's
`config` record field. -/
abbrev ConfigMap := List (String × Value)

/-- Lookup of a field in a config mapping (JS object property access). -/
def cfgLookup (k : String) (cfg : ConfigMap) : Option Value :=
  (cfg.find? (fun p => p.1 == k)).map (fun p => p.2)

/-- 2-D canvas position carried by each module (irrelevant to execution,
kept for round-trip fidelity, §3). -/
structure Position where
  x : Rat
  y : Rat
  deriving DecidableEq, Repr

/-- Module categories (§3). -/
inductive Category where
  | input
  | aiModel
  | output
  | logic
  deriving DecidableEq, Repr

/-- Declared kind of a config schema field (§4.1). -/
inductive FieldType where
  | tString
  | tNumber
  | tBoolean
  deriving DecidableEq, Repr

/-- One field of a module type's config schema:
name → { type, default, enum?, min?, max? } (§3). -/
structure FieldSchema where
  ftype : FieldType
  default : Value
  enum : Option (List Value)
  min : Option Rat
  max : Option Rat
  deriving DecidableEq, Repr

/-- A registry entry: module-type identifier, category, display name,
description and config schema (§3, §4.2). -/
structure ModuleType where
  id : String
  category : Category
  name : String
  description : String
  config_schema : List (String × FieldSchema)
  deriving DecidableEq, Repr

/-- Modelled from the spec: the Module Registry's `resolve(typeId)`
(§4.2); the registry implementation is not part of the shown source. -/
def resolve (reg : List ModuleType) (typeId : String) : Option ModuleType :=
  reg.find? (fun t => t.id == typeId)

/-- A persisted module record, exactly the shape written by
`saveWorkflow` in App.js: id, type, name, config, position. -/
structure ModuleRecord where
  id : String
  type : String
  name : String
  config : ConfigMap
  position : Position
  deriving DecidableEq, Repr

/-- A persisted connection record, exactly the shape written by
`saveWorkflow` in App.js: id, source, target, source_handle,
target_handle. -/
structure ConnectionRecord where
  id : String
  source : String
  target : String
  source_handle : Option String
  target_handle : Option String
  deriving DecidableEq, Repr

/-- A stored workflow: its module records and connection records (§3). -/
structure Workflow where
  modules : List ModuleRecord
  connections : List ConnectionRecord
  deriving DecidableEq, Repr

/-- The ids of a workflow's modules. -/
def moduleIds (wf : Workflow) : List String :=
  wf.modules.map (fun m => m.id)

/-- The workflow's connection graph as (source, target) id pairs. -/
def wfEdges (wf : Workflow) : List (String × String) :=
  wf.connections.map (fun c => (c.source, c.target))

/-! ## Config Schema Validator (§4.1), modelled from the spec -/

/-- Config validation failures (§4.1). -/
inductive ConfigError where
  | typeMismatch (field : String)
  | invalidEnumValue (field : String)
  | outOfRange (field : String)
  deriving DecidableEq, Repr

/-- Does a value match the declared field type? -/
def typeMatches : FieldType → Value → Bool
  | FieldType.tString, Value.vStr _ => true
  | FieldType.tNumber, Value.vNum _ => true
  | FieldType.tBoolean, Value.vBool _ => true
  | _, _ => false

/-- Numeric range check against the declared optional min / max bounds;
non-numeric values are unconstrained by range. -/
def inRange (fs : FieldSchema) (v : Value) : Bool :=
  match v with
  | Value.vNum q =>
      (match fs.min with
       | some lo => decide (lo ≤ q)
       | none => true) &&
      (match fs.max with
       | some hi => decide (q ≤ hi)
       | none => true)
  | _ => true

/-- Enum check: when the schema declares an enum, the value must belong
to it. -/
def enumOk (fs : FieldSchema) (v : Value) : Bool :=
  match fs.enum with
  | some vs => vs.contains v
  | none => true

/-- Modelled from the spec: per-field validation of a value that is
present in the config (§4.1): type mismatch, enum membership, range. -/
def validateField (field : String) (fs : FieldSchema) (v : Value) :
    Except ConfigError Value :=
  if !(typeMatches fs.ftype v) then
    Except.error (ConfigError.typeMismatch field)
  else if !(enumOk fs v) then
    Except.error (ConfigError.invalidEnumValue field)
  else if !(inRange fs v) then
    Except.error (ConfigError.outOfRange field)
  else
    Except.ok v

/-- Modelled from the spec: walk the schema; absent fields are replaced
by the schema default, present fields are validated (§4.1). -/
def validateFields : List (String × FieldSchema) → ConfigMap →
    Except ConfigError ConfigMap
  | [], _ => Except.ok []
  | (k, fs) :: rest, cfg =>
    match cfgLookup k cfg with
    | none =>
      match validateFields rest cfg with
      | Except.ok out => Except.ok ((k, fs.default) :: out)
      | Except.error e => Except.error e
    | some v =>
      match validateField k fs v with
      | Except.error e => Except.error e
      | Except.ok w =>
        match validateFields rest cfg with
        | Except.ok out => Except.ok ((k, w) :: out)
        | Except.error e => Except.error e

/-- Modelled from the spec: `validate(schema, config)` (§4.1).  Fields of
the config that are absent from the schema are passed through unchanged
(they carry only non-fatal warnings, which have no effect on the
produced config). -/
def validate (schema : List (String × FieldSchema)) (cfg : ConfigMap) :
    Except ConfigError ConfigMap :=
  match validateFields schema cfg with
  | Except.error e => Except.error e
  | Except.ok out =>
    Except.ok (out ++ cfg.filter (fun p => ¬ schema.any (fun s => s.1 == p.1)))

/-! ## Graph Builder (§4.3), modelled from the spec -/

/-- Structural graph-build failures (§4.3, §7). -/
inductive GraphError where
  | danglingConnection (connId : String)
  | unknownModuleType (typeId : String)
  | fanInViolation (target : String) (port : Option String)
  | cycleDetected (ids : List String)
  deriving DecidableEq, Repr

/-- First element of the list that occurs again later in it. -/
def firstDup [BEq α] : List α → Option α
  | [] => none
  | a :: l => if l.contains a then some a else firstDup l

/-- Does node `n` have an unresolved incoming dependency, i.e. an edge
into `n` whose source is still in `remaining`? -/
def hasIncomingFrom (edges : List (String × String)) (remaining : List String)
    (n : String) : Bool :=
  edges.any (fun e => e.2 == n && remaining.contains e.1)

/-- The nodes of `remaining` with zero unresolved incoming dependencies
(the "ready" nodes of Kahn's algorithm, §4.4). -/
def readyNodes (edges : List (String × String)) (remaining : List String) :
    List String :=
  remaining.filter (fun n => !(hasIncomingFrom edges remaining n))

/-- Least element of a list of ids in ascending id order (the
deterministic tie-break of §4.4). -/
def minId : List String → Option String
  | [] => none
  | a :: l => some (l.foldl (fun acc b => if b.toList < acc.toList then b else acc) a)

/-- Modelled from the spec: one fuelled pass of Kahn's algorithm (§4.4):
repeatedly extract the ready node with the least id; return the
extraction order and the nodes that were never extracted. -/
def kahnAux (edges : List (String × String)) :
    Nat → List String → List String × List String
  | 0, remaining => ([], remaining)
  | fuel + 1, remaining =>
    match minId (readyNodes edges remaining) with
    | none => ([], remaining)
    | some m =>
      ((m :: (kahnAux edges fuel (remaining.erase m)).1),
        (kahnAux edges fuel (remaining.erase m)).2)

/-- Kahn's algorithm over a node list: the fuel `nodes.length` suffices
because every extraction removes one node. -/
def kahn (edges : List (String × String)) (nodes : List String) :
    List String × List String :=
  kahnAux edges nodes.length nodes

/-- A chosen in-pool predecessor of `n`: the source of the first edge
into `n` whose source lies in `pool`. -/
def pickPred (edges : List (String × String)) (pool : List String)
    (n : String) : Option String :=
  (edges.find? (fun e => e.2 == n && pool.contains e.1)).map (fun e => e.1)

/-- A fuelled walk backwards along chosen predecessors, used to exhibit a
cycle inside a set of nodes that all have unresolved dependencies. -/
def backPath (edges : List (String × String)) (pool : List String) :
    Nat → String → List String
  | 0, n => [n]
  | k + 1, n =>
    match pickPred edges pool n with
    | none => [n]
    | some q => n :: backPath edges pool k q

/-- The in-memory execution graph produced by a successful build (§4.3):
modules with their resolved types, the connections, and the execution
order computed by the Scheduler's Kahn pass. -/
structure ExecutionGraph where
  nodes : List (ModuleRecord × ModuleType)
  connections : List ConnectionRecord
  order : List String
  deriving DecidableEq, Repr

/-- Modelled from the spec: `build(workflow)` (§4.3).  Validates, in the
order the spec lists them: every connection references existing module
ids; every module's type resolves in the registry; no input port receives
more than one connection; the graph is acyclic (leftover nodes of the
Kahn pass witness a cycle). -/
def build (reg : List ModuleType) (wf : Workflow) :
    Except GraphError ExecutionGraph :=
  match wf.connections.find?
      (fun c => !((moduleIds wf).contains c.source &&
                  (moduleIds wf).contains c.target)) with
  | some c => Except.error (GraphError.danglingConnection c.id)
  | none =>
    match wf.modules.find? (fun m => (resolve reg m.type).isNone) with
    | some m => Except.error (GraphError.unknownModuleType m.type)
    | none =>
      match firstDup (wf.connections.map (fun c => (c.target, c.target_handle))) with
      | some key => Except.error (GraphError.fanInViolation key.1 key.2)
      | none =>
        if (kahn (wfEdges wf) (moduleIds wf)).2.isEmpty then
          Except.ok
            { nodes := wf.modules.filterMap
                (fun m => (resolve reg m.type).map (fun t => (m, t))),
              connections := wf.connections,
              order := (kahn (wfEdges wf) (moduleIds wf)).1 }
        else
          Except.error (GraphError.cycleDetected (kahn (wfEdges wf) (moduleIds wf)).2)

/-! ## Scheduler (§4.4) and Execution Context, modelled from the spec -/

/-- Per-module run status (§4.4): `Succeeded`, `Failed(error)` or
`Skipped(cause)`. -/
inductive ModStatus where
  | succeeded (v : Value)
  | failed (err : String)
  | skipped (cause : String)
  deriving DecidableEq, Repr

/-- Run-scoped execution context (§2): per-module statuses, per-module
produced values, and the ids whose executor was actually invoked, in
invocation order. -/
structure Ctx where
  statuses : List (String × ModStatus)
  values : List (String × Value)
  executed : List String
  deriving DecidableEq, Repr

/-- The final aggregated result of a run (§4.4): the Output-module value
mapping and the status of every module. -/
structure RunResult where
  outputs : List (String × Value)
  statuses : List (String × ModStatus)
  deriving DecidableEq, Repr

/-- An abstract module executor: given the module id, its validated
config and its resolved port inputs, either produce a value or fail.
This stands for the category dispatch of §4.5, with provider calls and
runtime inputs folded into the closure. -/
abbrev Behavior := String → ConfigMap → List (Option String × Value) → Except String Value

/-- Status of a module id in the context. -/
def statusLookup (sts : List (String × ModStatus)) (id : String) :
    Option ModStatus :=
  (sts.find? (fun p => p.1 == id)).map (fun p => p.2)

/-- Is an upstream status a failure the Scheduler must propagate? -/
def isBad : Option ModStatus → Bool
  | some (ModStatus.failed _) => true
  | some (ModStatus.skipped _) => true
  | _ => false

/-- Resolve the incoming connections of `id` to the values already
produced by their source modules, keyed by target port (§4.4). -/
def gatherInputs (g : ExecutionGraph) (vals : List (String × Value))
    (id : String) : List (Option String × Value) :=
  (g.connections.filter (fun c => c.target == id)).filterMap
    (fun c => (vals.find? (fun p => p.1 == c.source)).map
      (fun p => (c.target_handle, p.2)))

/-- Modelled from the spec: one Scheduler step (§4.4): if any upstream
module failed or was skipped, mark the module Skipped(upstreamFailure)
without invoking its executor; otherwise validate its config (a
ConfigError is fatal for that module only, §7) and invoke the executor,
recording the outcome.  The module-not-found branch is defensive and
unreachable for graphs produced by `build`. -/
def runStep (g : ExecutionGraph) (behavior : Behavior) (ctx : Ctx)
    (id : String) : Ctx :=
  if (g.connections.filter (fun c => c.target == id)).any
      (fun c => isBad (statusLookup ctx.statuses c.source)) then
    { ctx with statuses := ctx.statuses ++ [(id, ModStatus.skipped "upstreamFailure")] }
  else
    match g.nodes.find? (fun n => n.1.id == id) with
    | none =>
      { ctx with statuses := ctx.statuses ++ [(id, ModStatus.failed "ModuleNotFound")] }
    | some n =>
      match validate n.2.config_schema n.1.config with
      | Except.error _ =>
        { ctx with statuses := ctx.statuses ++ [(id, ModStatus.failed "ConfigError")] }
      | Except.ok vcfg =>
        match behavior id vcfg (gatherInputs g ctx.values id) with
        | Except.ok v =>
          { statuses := ctx.statuses ++ [(id, ModStatus.succeeded v)],
            values := ctx.values ++ [(id, v)],
            executed := ctx.executed ++ [id] }
        | Except.error e =>
          { ctx with
            statuses := ctx.statuses ++ [(id, ModStatus.failed e)],
            executed := ctx.executed ++ [id] }

/-- Modelled from the spec: the Scheduler's run (§4.4): drive the
execution order computed at build time through `runStep`. -/
def runGraph (g : ExecutionGraph) (behavior : Behavior) : Ctx :=
  g.order.foldl (runStep g behavior) { statuses := [], values := [], executed := [] }

/-- Extract the final RunResult (§4.4): outputs is the mapping from each
Output-category module id to its produced value; statuses covers every
module. -/
def mkRunResult (g : ExecutionGraph) (ctx : Ctx) : RunResult :=
  { outputs := g.nodes.filterMap (fun n =>
      if n.2.category = Category.output then
        match statusLookup ctx.statuses n.1.id with
        | some (ModStatus.succeeded v) => some (n.1.id, v)
        | _ => none
      else none),
    statuses := ctx.statuses }

/-- Modelled from the spec: the execute entry point (§6, §7): build, and
only on success run; a GraphError is fatal before any module runs. -/
def execute (reg : List ModuleType) (wf : Workflow) (behavior : Behavior) :
    Except GraphError RunResult :=
  match build reg wf with
  | Except.error e => Except.error e
  | Except.ok g => Except.ok (mkRunResult g (runGraph g behavior))

/-- The module ids whose executor is invoked during an execute call;
empty whenever build fails, because run is never reached. -/
def executedModules (reg : List ModuleType) (wf : Workflow)
    (behavior : Behavior) : List String :=
  match build reg wf with
  | Except.error _ => []
  | Except.ok g => (runGraph g behavior).executed

/-- Modelled from the spec: the Input-category executor (§4.5): return
the externally supplied runtime value bound to this module id; fall back
to a configured default; otherwise fail with MissingRuntimeInput. -/
def inputExecutor (runtimeInputs : List (String × Value)) (moduleId : String)
    (cfg : ConfigMap) : Except String Value :=
  match (runtimeInputs.find? (fun p => p.1 == moduleId)).map (fun p => p.2) with
  | some v => Except.ok v
  | none =>
    match cfgLookup "default" cfg with
    | some v => Except.ok v
    | none => Except.error "MissingRuntimeInput"

/-! ## Frontend editor functions, translated from frontend/src/App.js -/

/-- A module-type catalog entry as the frontend receives it over the API
(category as a plain string). -/
structure ModuleTypeJS where
  id : String
  category : String
  name : String
  description : String
  deriving DecidableEq, Repr

/-- The `data` payload of a react-flow node as App.js builds it. -/
structure NodeData where
  label : String
  type : String
  category : String
  description : Option String
  config : Option ConfigMap
  deriving DecidableEq, Repr

/-- A react-flow node as App.js builds it. -/
structure FlowNode where
  id : String
  type : String
  position : Position
  data : NodeData
  deriving DecidableEq, Repr

/-- A react-flow edge as App.js builds it. -/
structure FlowEdge where
  id : String
  source : String
  target : String
  sourceHandle : Option String
  targetHandle : Option String
  deriving DecidableEq, Repr

/-- App.js loadWorkflow's category resolution with the JS or-else:
`moduleTypes.find(type => type.id === module.type)?.category || 'Unknown'`. -/
def categoryOfTypeJS (moduleTypes : List ModuleTypeJS) (typeId : String) :
    String :=
  match moduleTypes.find? (fun t => t.id == typeId) with
  | some t => if t.category = "" then "Unknown" else t.category
  | none => "Unknown"

/-- App.js loadWorkflow, module → node mapping (lines 172-182). -/
def loadNode (moduleTypes : List ModuleTypeJS) (m : ModuleRecord) : FlowNode :=
  { id := m.id,
    position := m.position,
    type := "custom",
    data := { label := m.name,
              type := m.type,
              category := categoryOfTypeJS moduleTypes m.type,
              description := none,
              config := some m.config } }

/-- App.js loadWorkflow, connection → edge mapping (lines 185-191). -/
def loadEdge (c : ConnectionRecord) : FlowEdge :=
  { id := c.id,
    source := c.source,
    target := c.target,
    sourceHandle := c.source_handle,
    targetHandle := c.target_handle }

/-- App.js saveWorkflow, node → module-record mapping (lines 204-210);
`node.data.config || \x7b\x7d` becomes a getD on the optional config. -/
def saveModule (n : FlowNode) : ModuleRecord :=
  { id := n.id,
    type := n.data.type,
    name := n.data.label,
    config := n.data.config.getD [],
    position := n.position }

/-- App.js saveWorkflow, edge → connection-record mapping (lines 213-219). -/
def saveEdge (e : FlowEdge) : ConnectionRecord :=
  { id := e.id,
    source := e.source,
    target := e.target,
    source_handle := e.sourceHandle,
    target_handle := e.targetHandle }

/-- App.js addModule (lines 325-341): append a fresh node whose id is
"node-" followed by a random base-36 suffix; the random suffix is made
an explicit parameter here. -/
def addModule (randSuffix : String) (mt : ModuleTypeJS)
    (nodes : List FlowNode) : List FlowNode :=
  nodes ++ [{ id := "node-" ++ randSuffix,
              type := "custom",
              position := { x := 100, y := 100 },
              data := { label := mt.name,
                        type := mt.id,
                        category := mt.category,
                        description := some mt.description,
                        config := some [] } }]

/-- No two nodes of the canvas share an id. -/
def UniqueIds (nodes : List FlowNode) : Prop :=
  (nodes.map (fun n => n.id)).Nodup

/-- App.js executeWorkflow (lines 302-315): the run action always posts
an empty input-bindings object, `const inputs = \x7b\x7d`. -/
def executeWorkflowInputs : List (String × Value) := []

/-- A directed cycle in an edge list: a nonempty chain of edges from `a`
that returns to `a`. -/
def HasCycle (edges : List (String × String)) : Prop :=
  ∃ a l, l ≠ [] ∧ List.Chain (fun u v => (u, v) ∈ edges) a l ∧
    l.getLast? = some a

/-- Invariant of the Scheduler's context while a run with exactly one
failing module `f` progresses through the prefix `done` of the order:
statuses cover exactly `done`; a recorded status is Failed for `f`,
Skipped(upstreamFailure) for the modules strictly downstream of `f`
(`down`), and Succeeded elsewhere; the executor was never invoked on a
downstream module, and was invoked on every processed module that is
neither `f` nor downstream of it. -/
def IsolationInv (f errMsg : String) (down : String → Prop) (ctx : Ctx)
    (done : List String) : Prop :=
  ctx.statuses.map Prod.fst = done ∧
  (∀ p st, (p, st) ∈ ctx.statuses →
    (p = f → st = ModStatus.failed errMsg) ∧
    (p ≠ f → down p → st = ModStatus.skipped "upstreamFailure") ∧
    (p ≠ f → ¬ down p → ∃ v, st = ModStatus.succeeded v)) ∧
  (∀ p ∈ ctx.executed, p = f ∨ ¬ down p) ∧
  (∀ p ∈ done, p ≠ f → ¬ down p → p ∈ ctx.executed)

/-! ## Concrete instances used to exercise the theorems -/

/-- A concrete catalog entry. -/
def textInputType : ModuleTypeJS :=
  { id := "text-input", category := "Input", name := "Text Input",
    description := "Capture text" }

/-- A concrete canvas node whose id collides with the suffix "abc". -/
def nodeAbc : FlowNode :=
  { id := "node-abc", type := "custom", position := { x := 100, y := 100 },
    data := { label := "Text Input", type := "text-input", category := "Input",
              description := some "Capture text", config := some [] } }

/-- A one-field schema declaring a numeric temperature with default 0.7. -/
def temperatureSchema : List (String × FieldSchema) :=
  [("temperature",
    { ftype := FieldType.tNumber, default := Value.vNum ((7 : Rat) / 10),
      enum := none, min := none, max := none })]

/-- A registry with a single Logic-category type with an empty schema. -/
def logicOnlyRegistry : List ModuleType :=
  [{ id := "t", category := Category.logic, name := "T", description := "",
     config_schema := [] }]

/-- A module record of type "t" with an empty config. -/
def mkModT (id : String) : ModuleRecord :=
  { id := id, type := "t", name := id, config := [], position := { x := 0, y := 0 } }

/-- The disjoint two-chain workflow A → B, C → D of the spec's failure
isolation scenario. -/
def wfABCD : Workflow :=
  { modules := [mkModT "A", mkModT "B", mkModT "C", mkModT "D"],
    connections := [{ id := "e1", source := "A", target := "B",
                      source_handle := none, target_handle := none },
                    { id := "e2", source := "C", target := "D",
                      source_handle := none, target_handle := none }] }

/-- An executor behavior that fails on module A and succeeds elsewhere. -/
def failABehavior : Behavior :=
  fun id _ _ => if id == "A" then Except.error "boom" else Except.ok (Value.vStr "ok")

/-- A two-module workflow with a 2-cycle A → B → A. -/
def wfCycle : Workflow :=
  { modules := [mkModT "A", mkModT "B"],
    connections := [{ id := "e1", source := "A", target := "B",
                      source_handle := none, target_handle := none },
                    { id := "e2", source := "B", target := "A",
                      source_handle := none, target_handle := none }] }

/-- A workflow whose two connections target the same input port of B. -/
def wfFanIn : Workflow :=
  { modules := [mkModT "A", mkModT "B", mkModT "C"],
    connections := [{ id := "e1", source := "A", target := "B",
                      source_handle := none, target_handle := some "in" },
                    { id := "e2", source := "C", target := "B",
                      source_handle := none, target_handle := some "in" }] }

/-- A workflow containing a module whose type id is not in the registry. -/
def wfUnknownType : Workflow :=
  { modules := [mkModT "A",
                { id := "B", type := "mystery", name := "B", config := [],
                  position := { x := 0, y := 0 } }],
    connections := [{ id := "e1", source := "A", target := "B",
                      source_handle := none, target_handle := none }] }

/-- A behavior that always succeeds with a fixed value. -/
def okBehavior : Behavior :=
  fun _ _ _ => Except.ok (Value.vStr "ok")

/-! ## Round-trip of save / load (C8) -/

/-- C8: Saving a workflow and loading it back round-trips without loss:
the composition of saveWorkflow's record mapping and loadWorkflow's
node / edge mapping preserves each module's id, type, name, config and
position, and each connection's id, source, target and handles; in the
record-to-record direction the composition is the identity. -/
theorem save_load_roundtrip :
    (∀ (mts : List ModuleTypeJS) (m : ModuleRecord),
        saveModule (loadNode mts m) = m) ∧
    (∀ c : ConnectionRecord, saveEdge (loadEdge c) = c) ∧
    (∀ e : FlowEdge, loadEdge (saveEdge e) = e) ∧
    (∀ (mts : List ModuleTypeJS) (n : FlowNode) (cfg : ConfigMap),
        n.data.config = some cfg →
          (loadNode mts (saveModule n)).id = n.id ∧
          (loadNode mts (saveModule n)).position = n.position ∧
          (loadNode mts (saveModule n)).data.type = n.data.type ∧
          (loadNode mts (saveModule n)).data.label = n.data.label ∧
          (loadNode mts (saveModule n)).data.config = some cfg) := by
  refine ⟨fun mts m => rfl, fun c => rfl, fun e => rfl, fun mts n cfg hc => ?_⟩
  simp [loadNode, saveModule, hc]

/-- Closed witness for C8 at a concrete node carrying a config. -/
theorem save_load_roundtrip_witness :
    nodeAbc.data.config = some [] ∧
    (loadNode [textInputType] (saveModule nodeAbc)).data.config = some [] :=
  ⟨rfl, (save_load_roundtrip.2.2.2 [textInputType] nodeAbc [] rfl).2.2.2.2⟩

/-! ## Uniqueness of module ids under addModule (C9) -/

/-- C9 counterexample: addModule as written performs no collision check,
so when the random suffix reproduces an existing id the uniqueness
invariant is broken: with one node of id "node-abc" on the canvas and
the drawn suffix "abc", the canvas ends with two nodes of the same id. -/
theorem addModule_unique_counterexample :
    UniqueIds [nodeAbc] ∧ ¬ UniqueIds (addModule "abc" textInputType [nodeAbc]) := by
  constructor
  · unfold UniqueIds
    decide
  · unfold UniqueIds
    decide

/-- C9 (amended): addModule preserves the uniqueness invariant whenever
the generated id "node-" ++ suffix differs from every existing node id;
the code itself never checks this, so uniqueness holds only conditionally
on the freshness of the random suffix. -/
theorem addModule_unique_preserved (suffix : String) (mt : ModuleTypeJS)
    (nodes : List FlowNode) (h1 : UniqueIds nodes)
    (h2 : ("node-" ++ suffix) ∉ nodes.map (fun n => n.id)) :
    UniqueIds (addModule suffix mt nodes) := by
  unfold UniqueIds addModule
  rw [List.map_append, List.nodup_append]
  refine ⟨h1, by simp, ?_⟩
  intro a ha hb
  simp only [List.map_cons, List.map_nil, List.mem_cons, List.not_mem_nil,
    or_false] at hb
  subst hb
  exact h2 ha

/-- Closed witness for C9's amended theorem at a fresh suffix. -/
theorem addModule_unique_preserved_witness :
    UniqueIds (addModule "xyz" textInputType [nodeAbc]) :=
  addModule_unique_preserved "xyz" textInputType [nodeAbc]
    (by unfold UniqueIds; decide) (by decide)

/-! ## The editor's run action posts empty inputs (C10) -/

/-- C10: executeWorkflow always posts an empty runtime-inputs mapping, so
no module id is bound to an externally supplied value, and the
Input-category executor run against those inputs succeeds exactly when a
default is configured (with that default as its value). -/
theorem executeWorkflow_empty_inputs :
    executeWorkflowInputs = [] ∧
    (∀ mid : String,
        (executeWorkflowInputs.find? (fun p => p.1 == mid)) = none) ∧
    (∀ (mid : String) (cfg : ConfigMap) (v : Value),
        inputExecutor executeWorkflowInputs mid cfg = Except.ok v ↔
          cfgLookup "default" cfg = some v) := by
  refine ⟨rfl, fun mid => rfl, fun mid cfg v => ?_⟩
  unfold inputExecutor executeWorkflowInputs
  cases h : cfgLookup "default" cfg <;> simp [h]

/-! ## Config defaulting (C6) -/

/-- A validated present field is returned unchanged. -/
theorem validateField_ok_eq {field : String} {fs : FieldSchema} {v w : Value}
    (h : validateField field fs v = Except.ok w) : w = v := by
  unfold validateField at h
  split_ifs at h <;> simp_all

/-- Config lookup walks past an entry with a different key. -/
theorem cfgLookup_cons_ne {k k1 : String} {v : Value} {cfg : ConfigMap}
    (h : k1 ≠ k) : cfgLookup k ((k1, v) :: cfg) = cfgLookup k cfg := by
  have hb : (k1 == k) = false := by simpa using h
  simp [cfgLookup, List.find?, hb]

/-- Config lookup finds a matching head entry. -/
theorem cfgLookup_cons_self {k : String} {v : Value} {cfg : ConfigMap} :
    cfgLookup k ((k, v) :: cfg) = some v := by
  simp [cfgLookup, List.find?]

/-- Lookup in the schema-driven part of a validated config: absent fields
carry the schema default, present fields carry their configured value. -/
theorem validateFields_lookup :
    ∀ (schema : List (String × FieldSchema)) (cfg out : ConfigMap)
      (k : String) (fs : FieldSchema),
      (schema.map Prod.fst).Nodup →
      (k, fs) ∈ schema →
      validateFields schema cfg = Except.ok out →
      ((cfgLookup k cfg = none → cfgLookup k out = some fs.default) ∧
       (∀ v, cfgLookup k cfg = some v → cfgLookup k out = some v))
  | [], _, _, _, _, _, hmem, _ => absurd hmem (List.not_mem_nil _)
  | (k1, fs1) :: rest, cfg, out, k, fs, hnd, hmem, hok => by
    rw [List.map_cons, List.nodup_cons] at hnd
    rcases List.mem_cons.mp hmem with heq | hrest
    · injection heq with hk hfs
      subst hk; subst hfs
      cases hc : cfgLookup k cfg with
      | none =>
        cases hrec : validateFields rest cfg with
        | error e => simp [validateFields, hc, hrec] at hok
        | ok out1 =>
          simp only [validateFields, hc, hrec, Except.ok.injEq] at hok
          refine ⟨fun _ => ?_, fun v hv => absurd hv (by simp)⟩
          rw [← hok]
          exact cfgLookup_cons_self
      | some v =>
        cases hvf : validateField k fs v with
        | error e => simp [validateFields, hc, hvf] at hok
        | ok w =>
          cases hrec : validateFields rest cfg with
          | error e => simp [validateFields, hc, hvf, hrec] at hok
          | ok out1 =>
            simp only [validateFields, hc, hvf, hrec, Except.ok.injEq] at hok
            have hwv : w = v := validateField_ok_eq hvf
            subst hwv
            refine ⟨fun habs => absurd habs (by simp), fun u hu => ?_⟩
            have hwu : w = u := by simpa using hu
            subst hwu
            rw [← hok]
            exact cfgLookup_cons_self
    · have hkne : k ≠ k1 := by
        rintro rfl
        exact hnd.1 (List.mem_map.mpr ⟨(k, fs), hrest, rfl⟩)
      cases hc1 : cfgLookup k1 cfg with
      | none =>
        cases hrec : validateFields rest cfg with
        | error e => simp [validateFields, hc1, hrec] at hok
        | ok out1 =>
          simp only [validateFields, hc1, hrec, Except.ok.injEq] at hok
          have ih := validateFields_lookup rest cfg out1 k fs hnd.2 hrest hrec
          rw [← hok]
          constructor
          · intro h0
            rw [cfgLookup_cons_ne (Ne.symm hkne)]
            exact ih.1 h0
          · intro v hv
            rw [cfgLookup_cons_ne (Ne.symm hkne)]
            exact ih.2 v hv
      | some v =>
        cases hvf : validateField k1 fs1 v with
        | error e => simp [validateFields, hc1, hvf] at hok
        | ok w =>
          cases hrec : validateFields rest cfg with
          | error e => simp [validateFields, hc1, hvf, hrec] at hok
          | ok out1 =>
            simp only [validateFields, hc1, hvf, hrec, Except.ok.injEq] at hok
            have ih := validateFields_lookup rest cfg out1 k fs hnd.2 hrest hrec
            rw [← hok]
            constructor
            · intro h0
              rw [cfgLookup_cons_ne (Ne.symm hkne)]
              exact ih.1 h0
            · intro u hu
              rw [cfgLookup_cons_ne (Ne.symm hkne)]
              exact ih.2 u hu

/-- C6: validate substitutes the schema default for every field absent
from the config, and never replaces a field that is present in the
config (whatever its value, including falsy ones such as 0 or false). -/
theorem validate_defaults (schema : List (String × FieldSchema))
    (cfg out : ConfigMap) (k : String) (fs : FieldSchema)
    (hnd : (schema.map Prod.fst).Nodup)
    (hmem : (k, fs) ∈ schema)
    (hok : validate schema cfg = Except.ok out) :
    (cfgLookup k cfg = none → cfgLookup k out = some fs.default) ∧
    (∀ v, cfgLookup k cfg = some v → cfgLookup k out = some v) := by
  unfold validate at hok
  cases hvf : validateFields schema cfg with
  | error e => rw [hvf] at hok; exact absurd hok (by simp)
  | ok mid =>
    rw [hvf] at hok
    have hout : out = mid ++ cfg.filter (fun p => ¬ schema.any (fun s => s.1 == p.1)) := by
      simpa using hok.symm
    subst hout
    have hmid := validateFields_lookup schema cfg mid k fs hnd hmem hvf
    constructor
    · intro h0
      have h1 := hmid.1 h0
      unfold cfgLookup at h1 ⊢
      rw [List.find?_append]
      cases hf : mid.find? (fun p => p.1 == k) with
      | none => rw [hf] at h1; exact absurd h1 (by simp)
      | some p => rw [hf] at h1; simpa using h1
    · intro v hv
      have h1 := hmid.2 v hv
      unfold cfgLookup at h1 ⊢
      rw [List.find?_append]
      cases hf : mid.find? (fun p => p.1 == k) with
      | none => rw [hf] at h1; exact absurd h1 (by simp)
      | some p => rw [hf] at h1; simpa using h1

/-- Closed witness for C6: a module with an empty config whose type
declares temperature with default 0.7 validates to temperature = 0.7,
while an explicitly configured falsy temperature 0 is kept. -/
theorem validate_defaults_witness :
    cfgLookup "temperature"
      ((validate temperatureSchema []).toOption.getD []) =
        some (Value.vNum ((7 : Rat) / 10)) ∧
    cfgLookup "temperature"
      ((validate temperatureSchema [("temperature", Value.vNum 0)]).toOption.getD []) =
        some (Value.vNum 0) := by
  constructor
  · have h := (validate_defaults temperatureSchema []
      [("temperature", Value.vNum ((7 : Rat) / 10))] "temperature"
      { ftype := FieldType.tNumber, default := Value.vNum ((7 : Rat) / 10),
        enum := none, min := none, max := none }
      (by decide) (by simp [temperatureSchema]) rfl).1 rfl
    exact h
  · exact (validate_defaults temperatureSchema [("temperature", Value.vNum 0)]
      [("temperature", Value.vNum 0)] "temperature"
      { ftype := FieldType.tNumber, default := Value.vNum ((7 : Rat) / 10),
        enum := none, min := none, max := none }
      (by decide) (by simp [temperatureSchema]) rfl).2
      (Value.vNum 0) rfl

/-! ## Graph-build error claims: fan-in (C5) and unknown type (C7) -/

/-- firstDup finds nothing exactly on duplicate-free lists. -/
theorem firstDup_eq_none_iff [BEq α] [LawfulBEq α] {l : List α} :
    firstDup l = none ↔ l.Nodup := by
  induction l with
  | nil => simp [firstDup]
  | cons a l ih =>
    by_cases h : l.contains a
    · have ha : a ∈ l := by
        simpa [List.contains] using h
      simp [firstDup, h, List.nodup_cons, ha]
    · have ha : a ∉ l := by
        simpa [List.contains] using h
      simp [firstDup, h, List.nodup_cons, ha, ih]

/-- The key reported by firstDup really occurs at least twice. -/
theorem firstDup_count [BEq α] [LawfulBEq α] {l : List α} {a : α}
    (h : firstDup l = some a) : 2 ≤ l.count a := by
  induction l with
  | nil => simp [firstDup] at h
  | cons b l ih =>
    by_cases hb : b ∈ l
    · have hab : b = a := by
        simpa [firstDup, hb] using h
      subst hab
      have h1 : 1 ≤ l.count b := List.one_le_count_iff.mpr hb
      rw [List.count_cons_self]
      omega
    · have h2 := ih (by simpa [firstDup, hb] using h)
      rw [List.count_cons]
      omega

/-- The dangling-connection check passes when every connection's
endpoints are module ids of the workflow. -/
theorem dangling_check_none {wf : Workflow}
    (hd : ∀ c ∈ wf.connections,
        c.source ∈ moduleIds wf ∧ c.target ∈ moduleIds wf) :
    wf.connections.find?
      (fun c => !((moduleIds wf).contains c.source &&
                  (moduleIds wf).contains c.target)) = none := by
  rw [List.find?_eq_none]
  intro c hc
  have := hd c hc
  simp [List.contains, this.1, this.2]

/-- The unknown-type check passes when every module's type resolves. -/
theorem unknown_check_none {reg : List ModuleType} {wf : Workflow}
    (ht : ∀ m ∈ wf.modules, (resolve reg m.type).isSome) :
    wf.modules.find? (fun m => (resolve reg m.type).isNone) = none := by
  rw [List.find?_eq_none]
  intro m hm
  have h1 : resolve reg m.type ≠ none := by
    intro h0
    have h2 := ht m hm
    rw [h0] at h2
    simp at h2
  simpa [Option.isNone_iff_eq_none] using h1

/-- C5: a workflow containing two connections that target the same input
port of the same module fails graph build with FanInViolationError (once
the earlier integrity checks pass), the reported port really carries at
least two connections, and no module is ever executed: the build error
means run is never invoked. -/
theorem build_fanin_violation (reg : List ModuleType) (wf : Workflow)
    (hd : ∀ c ∈ wf.connections,
        c.source ∈ moduleIds wf ∧ c.target ∈ moduleIds wf)
    (ht : ∀ m ∈ wf.modules, (resolve reg m.type).isSome)
    (hdup : ¬ (wf.connections.map (fun c => (c.target, c.target_handle))).Nodup) :
    ∃ t p, build reg wf = Except.error (GraphError.fanInViolation t p) ∧
      2 ≤ (wf.connections.map (fun c => (c.target, c.target_handle))).count (t, p) ∧
      ∀ behavior, executedModules reg wf behavior = [] := by
  have hfd : firstDup (wf.connections.map (fun c => (c.target, c.target_handle))) ≠ none := by
    intro h
    exact hdup (firstDup_eq_none_iff.mp h)
  cases hfd2 : firstDup (wf.connections.map (fun c => (c.target, c.target_handle))) with
  | none => exact absurd hfd2 hfd
  | some key =>
    refine ⟨key.1, key.2, ?_, ?_, ?_⟩
    · unfold build
      rw [dangling_check_none hd, unknown_check_none ht, hfd2]
    · have := firstDup_count hfd2
      simpa using this
    · intro behavior
      unfold executedModules
      unfold build
      rw [dangling_check_none hd, unknown_check_none ht, hfd2]

/-- Closed witness for C5 on the concrete double-fan-in workflow. -/
theorem build_fanin_violation_witness :
    ∃ t p, build logicOnlyRegistry wfFanIn = Except.error (GraphError.fanInViolation t p) ∧
      2 ≤ (wfFanIn.connections.map (fun c => (c.target, c.target_handle))).count (t, p) ∧
      ∀ behavior, executedModules logicOnlyRegistry wfFanIn behavior = [] :=
  build_fanin_violation logicOnlyRegistry wfFanIn
    (by intro c hc; fin_cases hc <;> simp [moduleIds, wfFanIn, mkModT])
    (by intro m hm; fin_cases hm <;> rfl)
    (by simp [wfFanIn])

/-- C7: a workflow containing a module whose type id does not resolve in
the registry fails graph build with UnknownModuleTypeError naming an
unresolvable type id (once the dangling check passes), and no module is
ever executed or carried along: the build error means run is never
invoked. -/
theorem build_unknown_module_type (reg : List ModuleType) (wf : Workflow)
    (hd : ∀ c ∈ wf.connections,
        c.source ∈ moduleIds wf ∧ c.target ∈ moduleIds wf)
    (m : ModuleRecord) (hm : m ∈ wf.modules)
    (hu : resolve reg m.type = none) :
    ∃ t, build reg wf = Except.error (GraphError.unknownModuleType t) ∧
      resolve reg t = none ∧
      ∀ behavior, executedModules reg wf behavior = [] := by
  have hex : (wf.modules.find? (fun m => (resolve reg m.type).isNone)).isSome := by
    rw [List.find?_isSome]
    exact ⟨m, hm, by simp [hu]⟩
  cases hf : wf.modules.find? (fun m => (resolve reg m.type).isNone) with
  | none => rw [hf] at hex; simp at hex
  | some m0 =>
    have hm0 : (resolve reg m0.type).isNone = true := by
      have h5 := List.find?_some hf
      simpa using h5
    refine ⟨m0.type, ?_, ?_, ?_⟩
    · unfold build
      rw [dangling_check_none hd, hf]
    · simpa using hm0
    · intro behavior
      unfold executedModules
      unfold build
      rw [dangling_check_none hd, hf]

/-- Closed witness for C7 on the concrete workflow with an unresolvable
module type. -/
theorem build_unknown_module_type_witness :
    ∃ t, build logicOnlyRegistry wfUnknownType =
        Except.error (GraphError.unknownModuleType t) ∧
      resolve logicOnlyRegistry t = none ∧
      ∀ behavior, executedModules logicOnlyRegistry wfUnknownType behavior = [] :=
  build_unknown_module_type logicOnlyRegistry wfUnknownType
    (by intro c hc; fin_cases hc <;> simp [moduleIds, wfUnknownType, mkModT])
    { id := "B", type := "mystery", name := "B", config := [],
      position := { x := 0, y := 0 } }
    (by simp [wfUnknownType])
    rfl

/-! ## Kahn's algorithm: permutation, topological order, tie-break -/

/-- The running minimum of a fold stays inside the candidate list. -/
theorem foldlMin_mem :
    ∀ (l : List String) (a : String),
      l.foldl (fun acc b => if b.toList < acc.toList then b else acc) a ∈ a :: l := by
  intro l
  induction l with
  | nil => intro a; simp
  | cons b l ih =>
    intro a
    simp only [List.foldl_cons]
    by_cases h : b.toList < a.toList
    · rw [if_pos h]
      have h2 := ih b
      simp only [List.mem_cons] at h2 ⊢
      tauto
    · rw [if_neg h]
      have h2 := ih a
      simp only [List.mem_cons] at h2 ⊢
      tauto

/-- The running minimum of a fold bounds every candidate from below, in
the order of module ids. -/
theorem foldlMin_le :
    ∀ (l : List String) (a x : String), x ∈ a :: l →
      l.foldl (fun acc b => if b.toList < acc.toList then b else acc) a ≤ x := by
  intro l
  induction l with
  | nil =>
    intro a x hx
    have : x = a := by simpa using hx
    subst this
    simp
  | cons b l ih =>
    intro a x hx
    simp only [List.foldl_cons]
    by_cases h : b.toList < a.toList
    · rw [if_pos h]
      rcases List.mem_cons.mp hx with h1 | h1
      · subst h1
        exact le_trans (ih b b (by simp)) (le_of_lt (String.lt_iff_toList_lt.mpr h))
      · exact ih b x h1
    · rw [if_neg h]
      rcases List.mem_cons.mp hx with h1 | h1
      · subst h1
        exact ih x x (by simp)
      · rcases List.mem_cons.mp h1 with h2 | h2
        · subst h2
          exact le_trans (ih a a (by simp))
            (le_of_not_lt (fun hba => h (String.lt_iff_toList_lt.mp hba)))
        · exact ih a x (List.mem_cons_of_mem a h2)

/-- The selected id belongs to the candidate list. -/
theorem minId_mem {l : List String} {m : String} (h : minId l = some m) :
    m ∈ l := by
  cases l with
  | nil => simp [minId] at h
  | cons a l =>
    have : l.foldl (fun acc b => if b.toList < acc.toList then b else acc) a = m := by
      simpa [minId] using h
    rw [← this]
    exact foldlMin_mem l a

/-- The selected id is the least candidate. -/
theorem minId_le {l : List String} {m : String} (h : minId l = some m) :
    ∀ x ∈ l, m ≤ x := by
  cases l with
  | nil => simp [minId] at h
  | cons a l =>
    have heq : l.foldl (fun acc b => if b.toList < acc.toList then b else acc) a = m := by
      simpa [minId] using h
    intro x hx
    rw [← heq]
    exact foldlMin_le l a x hx

/-- minId finds nothing only on the empty list. -/
theorem minId_eq_none {l : List String} : minId l = none ↔ l = [] := by
  cases l <;> simp [minId]

/-- The extracted order together with the leftover is a permutation of
the input nodes. -/
theorem kahnAux_perm (edges : List (String × String)) :
    ∀ (fuel : Nat) (remaining : List String),
      ((kahnAux edges fuel remaining).1 ++ (kahnAux edges fuel remaining).2).Perm
        remaining := by
  intro fuel
  induction fuel with
  | zero => intro remaining; simp [kahnAux]
  | succ fuel ih =>
    intro remaining
    cases hm : minId (readyNodes edges remaining) with
    | none => simp [kahnAux, hm]
    | some m =>
      have hmem : m ∈ remaining := List.mem_of_mem_filter (minId_mem hm)
      simp only [kahnAux, hm, List.cons_append]
      exact ((ih (remaining.erase m)).cons m).trans (List.perm_cons_erase hmem).symm

/-- When everything is extracted, sources are extracted strictly before
the targets of their edges. -/
theorem kahnAux_topo (edges : List (String × String)) :
    ∀ (fuel : Nat) (remaining : List String) (s t : String),
      (kahnAux edges fuel remaining).2 = [] →
      (s, t) ∈ edges → s ∈ remaining → t ∈ remaining →
      (kahnAux edges fuel remaining).1.indexOf s <
        (kahnAux edges fuel remaining).1.indexOf t := by
  intro fuel
  induction fuel with
  | zero =>
    intro remaining s t hleft hst hs ht
    simp only [kahnAux] at hleft
    subst hleft
    simp at hs
  | succ fuel ih =>
    intro remaining s t hleft hst hs ht
    cases hm : minId (readyNodes edges remaining) with
    | none =>
      simp only [kahnAux, hm] at hleft
      subst hleft
      simp at hs
    | some m =>
      simp only [kahnAux, hm] at hleft ⊢
      have htnr : t ∉ readyNodes edges remaining := by
        intro hmem
        have hpred := List.of_mem_filter hmem
        have htrue : hasIncomingFrom edges remaining t = true := by
          unfold hasIncomingFrom
          rw [List.any_eq_true]
          exact ⟨(s, t), hst, by simp [List.contains, hs]⟩
        simp [htrue] at hpred
      have hmt : m ≠ t := by
        rintro rfl
        exact htnr (minId_mem hm)
      by_cases hms : m = s
      · subst hms
        rw [List.indexOf_cons_self, List.indexOf_cons_ne _ hmt]
        exact Nat.succ_pos _
      · have hs2 : s ∈ remaining.erase m :=
          (List.mem_erase_of_ne (fun h => hms h.symm)).mpr hs
        have ht2 : t ∈ remaining.erase m :=
          (List.mem_erase_of_ne (fun h => hmt h.symm)).mpr ht
        have hlt := ih (remaining.erase m) s t hleft hst hs2 ht2
        rw [List.indexOf_cons_ne _ hms, List.indexOf_cons_ne _ hmt]
        exact Nat.succ_lt_succ hlt

/-- Wherever the extracted order splits as pre ++ x :: post, the node x
is ready with respect to the nodes not yet extracted, and x is the least
such ready node: the ascending-id tie-break of §4.4. -/
theorem kahnAux_tiebreak (edges : List (String × String)) :
    ∀ (fuel : Nat) (remaining pre post : List String) (x : String),
      (kahnAux edges fuel remaining).1 = pre ++ x :: post →
      x ∈ readyNodes edges (pre.foldl (fun r n => r.erase n) remaining) ∧
      ∀ n ∈ readyNodes edges (pre.foldl (fun r n => r.erase n) remaining),
        x ≤ n := by
  intro fuel
  induction fuel with
  | zero =>
    intro remaining pre post x h
    simp only [kahnAux] at h
    exact absurd h.symm (List.append_ne_nil_of_right_ne_nil pre (by simp))
  | succ fuel ih =>
    intro remaining pre post x h
    cases hm : minId (readyNodes edges remaining) with
    | none =>
      simp only [kahnAux, hm] at h
      exact absurd h.symm (List.append_ne_nil_of_right_ne_nil pre (by simp))
    | some m =>
      simp only [kahnAux, hm] at h
      cases pre with
      | nil =>
        simp only [List.nil_append] at h
        have hx : m = x := by
          have := congrArg (fun l => l.head?) h
          simpa using this
        subst hx
        simp only [List.foldl_nil]
        exact ⟨minId_mem hm, minId_le hm⟩
      | cons a pre2 =>
        simp only [List.cons_append] at h
        have ham : a = m := by
          have := congrArg (fun l => l.head?) h
          simpa using this.symm
        subst ham
        have htl : (kahnAux edges fuel (remaining.erase a)).1 = pre2 ++ x :: post := by
          have := congrArg (fun l => l.tail) h
          simpa using this
        simp only [List.foldl_cons]
        exact ih (remaining.erase a) pre2 post x htl

/-- With enough fuel, a nonempty leftover has no ready node at all. -/
theorem kahnAux_leftover_ready (edges : List (String × String)) :
    ∀ (fuel : Nat) (remaining : List String),
      remaining.length ≤ fuel →
      (kahnAux edges fuel remaining).2 ≠ [] →
      readyNodes edges ((kahnAux edges fuel remaining).2) = [] := by
  intro fuel
  induction fuel with
  | zero =>
    intro remaining hlen hne
    have : remaining = [] := List.length_eq_zero.mp (Nat.le_zero.mp hlen)
    subst this
    simp [kahnAux] at hne
  | succ fuel ih =>
    intro remaining hlen hne
    cases hm : minId (readyNodes edges remaining) with
    | none =>
      simp only [kahnAux, hm] at hne ⊢
      exact minId_eq_none.mp hm
    | some m =>
      have hmem : m ∈ remaining := List.mem_of_mem_filter (minId_mem hm)
      have hlen2 : (remaining.erase m).length ≤ fuel := by
        have := List.length_erase_add_one hmem
        omega
      simp only [kahnAux, hm] at hne ⊢
      exact ih (remaining.erase m) hlen2 hne

/-! ## Cycles: extraction from a stuck leftover, and persistence -/

/-- A chain with a duplicated element contains a closed cycle. -/
theorem chain_dup_cycle {α : Type} (R : α → α → Prop) :
    ∀ (p : List α), List.Chain' R p → ¬ p.Nodup →
      ∃ a l, l ≠ [] ∧ List.Chain R a l ∧ l.getLast? = some a := by
  intro p
  induction p with
  | nil => intro _ h; exact absurd List.nodup_nil h
  | cons x rest ih =>
    intro hch hnd
    by_cases hx : x ∈ rest
    · obtain ⟨l1, l2, hsplit⟩ := List.append_of_mem hx
      subst hsplit
      refine ⟨x, l1 ++ [x], by simp, ?_, List.getLast?_concat _⟩
      have h1 : List.Chain' R ((x :: l1) ++ x :: l2) := by simpa using hch
      have h2 := (List.chain'_split.mp h1).1
      exact h2
    · have hnd2 : ¬ rest.Nodup := by
        intro h
        exact hnd (List.nodup_cons.mpr ⟨hx, h⟩)
      exact ih hch.tail hnd2

/-- When a node has an unresolved dependency inside the pool, a concrete
in-pool predecessor can be picked. -/
theorem pickPred_spec {edges : List (String × String)} {pool : List String}
    {n : String} (h : hasIncomingFrom edges pool n = true) :
    ∃ q, pickPred edges pool n = some q ∧ q ∈ pool ∧ (q, n) ∈ edges := by
  unfold hasIncomingFrom at h
  rw [List.any_eq_true] at h
  obtain ⟨e, he, hpe⟩ := h
  have hsome : (edges.find? (fun e => e.2 == n && pool.contains e.1)).isSome := by
    rw [List.find?_isSome]
    exact ⟨e, he, hpe⟩
  cases hf : edges.find? (fun e => e.2 == n && pool.contains e.1) with
  | none => rw [hf] at hsome; simp at hsome
  | some e0 =>
    have hp := List.find?_some hf
    have hm := List.mem_of_find?_eq_some hf
    simp only [Bool.and_eq_true, beq_iff_eq] at hp
    refine ⟨e0.1, by unfold pickPred; rw [hf]; rfl, ?_, ?_⟩
    · simpa [List.contains] using hp.2
    · have he0 : e0 = (e0.1, n) := by
        cases e0 with
        | mk u v =>
          simp only at hp ⊢
          rw [hp.1]
      rw [← he0]
      exact hm

/-- The backwards walk starts at its argument. -/
theorem backPath_head (edges : List (String × String)) (pool : List String)
    (k : Nat) (q : String) :
    (backPath edges pool k q).head? = some q := by
  cases k with
  | zero => rfl
  | succ k =>
    cases hpq : pickPred edges pool q <;> simp [backPath, hpq]

/-- Inside a pool whose members all have unresolved in-pool dependencies,
the backwards walk has full length, stays in the pool, and steps along
reversed edges. -/
theorem backPath_props {edges : List (String × String)} {pool : List String}
    (H : ∀ n ∈ pool, hasIncomingFrom edges pool n = true) :
    ∀ (k : Nat) (n : String), n ∈ pool →
      (backPath edges pool k n).length = k + 1 ∧
      (∀ x ∈ backPath edges pool k n, x ∈ pool) ∧
      List.Chain' (fun u v => (v, u) ∈ edges) (backPath edges pool k n) := by
  intro k
  induction k with
  | zero =>
    intro n hn
    refine ⟨rfl, ?_, by simp [backPath]⟩
    intro x hx
    have : x = n := by simpa [backPath] using hx
    subst this
    exact hn
  | succ k ih =>
    intro n hn
    obtain ⟨q, hq, hqp, hqe⟩ := pickPred_spec (H n hn)
    obtain ⟨ihlen, ihmem, ihch⟩ := ih q hqp
    simp only [backPath, hq]
    refine ⟨by simp [ihlen], ?_, ?_⟩
    · intro x hx
      rcases List.mem_cons.mp hx with rfl | hx2
      · exact hn
      · exact ihmem x hx2
    · rw [List.chain'_cons']
      refine ⟨?_, ihch⟩
      intro y hy
      rw [backPath_head] at hy
      have : y = q := by simpa [eq_comm] using hy
      subst this
      exact hqe

/-- A nonempty node set with no ready node forces a directed cycle. -/
theorem cycle_of_no_ready {edges : List (String × String)} {L : List String}
    (hne : L ≠ []) (hready : readyNodes edges L = []) : HasCycle edges := by
  have H : ∀ n ∈ L, hasIncomingFrom edges L n = true := by
    intro n hn
    by_contra h0
    have hb : hasIncomingFrom edges L n = false := by
      cases hh : hasIncomingFrom edges L n
      · rfl
      · exact absurd hh h0
    have hmem : n ∈ readyNodes edges L := List.mem_filter.mpr ⟨hn, by simp [hb]⟩
    rw [hready] at hmem
    simp at hmem
  obtain ⟨n0, hn0⟩ : ∃ n0, n0 ∈ L := by
    cases L with
    | nil => exact absurd rfl hne
    | cons a l => exact ⟨a, by simp⟩
  obtain ⟨hlen, hmem, hch⟩ := backPath_props H L.length n0 hn0
  have hnnd : ¬ (backPath edges L L.length n0).Nodup := by
    intro hnd
    have hsub : backPath edges L L.length n0 ⊆ L := fun x hx => hmem x hx
    have hle := (List.subperm_of_subset hnd hsub).length_le
    omega
  have hchrev : List.Chain' (fun u v => (u, v) ∈ edges)
      (backPath edges L L.length n0).reverse := by
    rw [List.chain'_reverse]
    exact hch
  have hndrev : ¬ ((backPath edges L L.length n0).reverse).Nodup := by
    rw [List.nodup_reverse]
    exact hnnd
  obtain ⟨a, l, hlne, hchc, hlast⟩ :=
    chain_dup_cycle (fun u v => (u, v) ∈ edges) _ hchrev hndrev
  exact ⟨a, l, hlne, hchc, hlast⟩

/-- Every element of a chain has a predecessor among the chain's nodes. -/
theorem chain_pred {α : Type} (R : α → α → Prop) :
    ∀ (l : List α) (a : α), List.Chain R a l →
      ∀ n ∈ l, ∃ p ∈ a :: l, R p n := by
  intro l
  induction l with
  | nil => intro a _ n hn; simp at hn
  | cons b l ih =>
    intro a hch n hn
    cases hch with
    | cons hab hbl =>
      rcases List.mem_cons.mp hn with rfl | hn2
      · exact ⟨a, by simp, hab⟩
      · obtain ⟨p, hp, hpr⟩ := ih b hbl n hn2
        exact ⟨p, List.mem_cons_of_mem a hp, hpr⟩

/-- Every node of a closed cycle has an in-cycle predecessor edge. -/
theorem cycle_member_pred {edges : List (String × String)} {a : String}
    {l : List String}
    (hch : List.Chain (fun u v => (u, v) ∈ edges) a l)
    (hlast : l.getLast? = some a) :
    ∀ n ∈ a :: l, ∃ p ∈ a :: l, (p, n) ∈ edges := by
  intro n hn
  rcases List.mem_cons.mp hn with rfl | hn2
  · have ha : n ∈ l := List.mem_of_getLast?_eq_some hlast
    exact chain_pred _ l n hch n ha
  · exact chain_pred _ l a hch n hn2

/-- A set of nodes that all have in-set predecessor edges is never
extracted by Kahn's algorithm: it survives into the leftover. -/
theorem kahnAux_cycle_stays (edges : List (String × String)) (S : List String)
    (hS : ∀ n ∈ S, ∃ p ∈ S, (p, n) ∈ edges) :
    ∀ (fuel : Nat) (remaining : List String),
      (∀ n ∈ S, n ∈ remaining) →
      ∀ n ∈ S, n ∈ (kahnAux edges fuel remaining).2 := by
  intro fuel
  induction fuel with
  | zero =>
    intro remaining h n hn
    simpa [kahnAux] using h n hn
  | succ fuel ih =>
    intro remaining h n hn
    cases hm : minId (readyNodes edges remaining) with
    | none => simpa [kahnAux, hm] using h n hn
    | some m =>
      simp only [kahnAux, hm]
      have hxne : ∀ x ∈ S, x ≠ m := by
        intro x hx
        rintro rfl
        have hmem := minId_mem hm
        have hpred := List.of_mem_filter hmem
        obtain ⟨p, hp, hpe⟩ := hS x hx
        have htrue : hasIncomingFrom edges remaining x = true := by
          unfold hasIncomingFrom
          rw [List.any_eq_true]
          exact ⟨(p, x), hpe, by simp [List.contains, h p hp]⟩
        simp [htrue] at hpred
      exact ih (remaining.erase m)
        (fun x hx => (List.mem_erase_of_ne (hxne x hx)).mpr (h x hx)) n hn

/-! ## Build inversion and the topological-order / cycle claims -/

/-- Inverting a successful build: the graph's components, the clean Kahn
pass, and the integrity facts established by the passed checks. -/
theorem build_ok_inversion {reg : List ModuleType} {wf : Workflow}
    {g : ExecutionGraph} (hb : build reg wf = Except.ok g) :
    g.nodes = wf.modules.filterMap
        (fun m => (resolve reg m.type).map (fun t => (m, t))) ∧
    g.connections = wf.connections ∧
    g.order = (kahn (wfEdges wf) (moduleIds wf)).1 ∧
    (kahn (wfEdges wf) (moduleIds wf)).2 = [] ∧
    (∀ c ∈ wf.connections,
        c.source ∈ moduleIds wf ∧ c.target ∈ moduleIds wf) ∧
    (∀ m ∈ wf.modules, (resolve reg m.type).isSome) := by
  unfold build at hb
  cases h1 : wf.connections.find?
      (fun c => !((moduleIds wf).contains c.source &&
                  (moduleIds wf).contains c.target)) with
  | some c => rw [h1] at hb; simp at hb
  | none =>
    rw [h1] at hb
    cases h2 : wf.modules.find? (fun m => (resolve reg m.type).isNone) with
    | some m => rw [h2] at hb; simp at hb
    | none =>
      rw [h2] at hb
      cases h3 : firstDup (wf.connections.map (fun c => (c.target, c.target_handle))) with
      | some key => rw [h3] at hb; simp at hb
      | none =>
        rw [h3] at hb
        by_cases h4 : (kahn (wfEdges wf) (moduleIds wf)).2.isEmpty
        · rw [if_pos h4] at hb
          injection hb with hg
          subst hg
          refine ⟨rfl, rfl, rfl, List.isEmpty_iff.mp h4, ?_, ?_⟩
          · intro c hc
            have h5 := List.find?_eq_none.mp h1 c hc
            simpa [List.contains] using h5
          · intro m hm
            have h5 := List.find?_eq_none.mp h2 m hm
            cases hres : resolve reg m.type with
            | none => rw [hres] at h5; simp at h5
            | some t => simp
        · rw [if_neg h4] at hb
          simp at hb

/-- A graph without two consecutive edges has no cycle. -/
theorem no_cycle_of_no_consecutive {edges : List (String × String)}
    (h : ∀ e ∈ edges, ∀ e2 ∈ edges, e.2 ≠ e2.1) : ¬ HasCycle edges := by
  intro hcy
  obtain ⟨a, l, hl, hch, hlast⟩ := hcy
  have hS := cycle_member_pred hch hlast
  obtain ⟨p1, hp1S, hp1e⟩ := hS a (by simp)
  obtain ⟨p2, hp2S, hp2e⟩ := hS p1 hp1S
  exact h (p2, p1) hp2e (p1, a) hp1e rfl

/-- C1: for every acyclic workflow graph (whose connections reference
existing modules), the Scheduler's order is a permutation of the module
ids in which every connection's source is executed strictly before its
target, and whenever several modules are simultaneously ready, the
ascending-least module id is executed first; a successful build runs
exactly this order. -/
theorem scheduler_topological_order (wf : Workflow)
    (hd : ∀ c ∈ wf.connections,
        c.source ∈ moduleIds wf ∧ c.target ∈ moduleIds wf)
    (hnc : ¬ HasCycle (wfEdges wf)) :
    ((kahn (wfEdges wf) (moduleIds wf)).1).Perm (moduleIds wf) ∧
    (∀ c ∈ wf.connections,
        (kahn (wfEdges wf) (moduleIds wf)).1.indexOf c.source <
          (kahn (wfEdges wf) (moduleIds wf)).1.indexOf c.target) ∧
    (∀ pre x post,
        (kahn (wfEdges wf) (moduleIds wf)).1 = pre ++ x :: post →
          x ∈ readyNodes (wfEdges wf)
                (pre.foldl (fun r n => r.erase n) (moduleIds wf)) ∧
          ∀ n ∈ readyNodes (wfEdges wf)
                (pre.foldl (fun r n => r.erase n) (moduleIds wf)), x ≤ n) ∧
    (∀ (reg : List ModuleType) (g : ExecutionGraph),
        build reg wf = Except.ok g →
          g.order = (kahn (wfEdges wf) (moduleIds wf)).1) := by
  have hleft : (kahn (wfEdges wf) (moduleIds wf)).2 = [] := by
    by_contra h0
    have hready := kahnAux_leftover_ready (wfEdges wf) (moduleIds wf).length
      (moduleIds wf) (le_refl _) h0
    exact hnc (cycle_of_no_ready h0 hready)
  refine ⟨?_, ?_, ?_, ?_⟩
  · have hp := kahnAux_perm (wfEdges wf) (moduleIds wf).length (moduleIds wf)
    rw [kahn]
    rw [kahn] at hleft
    rw [hleft, List.append_nil] at hp
    exact hp
  · intro c hc
    have he : (c.source, c.target) ∈ wfEdges wf := List.mem_map.mpr ⟨c, hc, rfl⟩
    exact kahnAux_topo (wfEdges wf) (moduleIds wf).length (moduleIds wf)
      c.source c.target hleft he (hd c hc).1 (hd c hc).2
  · intro pre x post hsplit
    exact kahnAux_tiebreak (wfEdges wf) (moduleIds wf).length (moduleIds wf)
      pre post x hsplit
  · intro reg g hb
    exact (build_ok_inversion hb).2.2.1

/-- Closed witness for C1 on the disjoint two-chain workflow. -/
theorem scheduler_topological_order_witness :
    ((kahn (wfEdges wfABCD) (moduleIds wfABCD)).1).Perm (moduleIds wfABCD) ∧
    (kahn (wfEdges wfABCD) (moduleIds wfABCD)).1.indexOf "A" <
      (kahn (wfEdges wfABCD) (moduleIds wfABCD)).1.indexOf "B" ∧
    (kahn (wfEdges wfABCD) (moduleIds wfABCD)).1.indexOf "C" <
      (kahn (wfEdges wfABCD) (moduleIds wfABCD)).1.indexOf "D" := by
  have h := scheduler_topological_order wfABCD
    (by intro c hc; fin_cases hc <;> simp [moduleIds, wfABCD, mkModT])
    (no_cycle_of_no_consecutive (by decide))
  refine ⟨h.1, ?_, ?_⟩
  · have h2 := h.2.1 ⟨"e1", "A", "B", none, none⟩ (by simp [wfABCD])
    simpa using h2
  · have h2 := h.2.1 ⟨"e2", "C", "D", none, none⟩ (by simp [wfABCD])
    simpa using h2

/-- C2: a workflow whose connection graph contains a directed cycle
(given as a closed edge chain) fails graph build with CycleDetectedError
whose report contains every module id of the cycle, and run is never
invoked: no module is ever executed (the other integrity checks are
assumed to pass; an ill-formed cyclic workflow fails build even earlier
with the corresponding GraphError). -/
theorem build_cycle_detected (reg : List ModuleType) (wf : Workflow)
    (hd : ∀ c ∈ wf.connections,
        c.source ∈ moduleIds wf ∧ c.target ∈ moduleIds wf)
    (ht : ∀ m ∈ wf.modules, (resolve reg m.type).isSome)
    (hf : (wf.connections.map (fun c => (c.target, c.target_handle))).Nodup)
    (a : String) (l : List String) (hl : l ≠ [])
    (hch : List.Chain (fun u v => (u, v) ∈ wfEdges wf) a l)
    (hlast : l.getLast? = some a) :
    build reg wf = Except.error
        (GraphError.cycleDetected (kahn (wfEdges wf) (moduleIds wf)).2) ∧
    (kahn (wfEdges wf) (moduleIds wf)).2 ≠ [] ∧
    (∀ n ∈ a :: l, n ∈ (kahn (wfEdges wf) (moduleIds wf)).2) ∧
    ∀ behavior, executedModules reg wf behavior = [] := by
  have hS := cycle_member_pred hch hlast
  have hSin : ∀ n ∈ a :: l, n ∈ moduleIds wf := by
    intro n hn
    obtain ⟨p, hp, hpe⟩ := hS n hn
    obtain ⟨c, hc, hceq⟩ := List.mem_map.mp hpe
    have hn2 : c.target = n := congrArg Prod.snd hceq
    have := (hd c hc).2
    rwa [hn2] at this
  have hstay := kahnAux_cycle_stays (wfEdges wf) (a :: l) hS
    (moduleIds wf).length (moduleIds wf) hSin
  have hne : (kahn (wfEdges wf) (moduleIds wf)).2 ≠ [] := by
    intro h0
    have ha := hstay a (by simp)
    rw [kahn] at h0
    rw [h0] at ha
    simp at ha
  have hbuild : build reg wf = Except.error
      (GraphError.cycleDetected (kahn (wfEdges wf) (moduleIds wf)).2) := by
    unfold build
    rw [dangling_check_none hd, unknown_check_none ht,
      firstDup_eq_none_iff.mpr hf]
    rw [if_neg (by simpa using hne)]
  refine ⟨hbuild, hne, fun n hn => hstay n hn, fun behavior => ?_⟩
  unfold executedModules
  rw [hbuild]

/-- Closed witness for C2 on the concrete 2-cycle workflow A → B → A. -/
theorem build_cycle_detected_witness :
    build logicOnlyRegistry wfCycle = Except.error
        (GraphError.cycleDetected (kahn (wfEdges wfCycle) (moduleIds wfCycle)).2) ∧
    (kahn (wfEdges wfCycle) (moduleIds wfCycle)).2 ≠ [] ∧
    "A" ∈ (kahn (wfEdges wfCycle) (moduleIds wfCycle)).2 ∧
    executedModules logicOnlyRegistry wfCycle okBehavior = [] := by
  have h := build_cycle_detected logicOnlyRegistry wfCycle
    (by intro c hc; fin_cases hc <;> simp [moduleIds, wfCycle, mkModT])
    (by intro m hm; fin_cases hm <;> rfl)
    (by simp [wfCycle])
    "A" ["B", "A"] (by simp)
    (List.Chain.cons (by simp [wfEdges, wfCycle])
      (List.Chain.cons (by simp [wfEdges, wfCycle]) List.Chain.nil))
    rfl
  exact ⟨h.1, h.2.1, h.2.2.1 "A" (by simp), h.2.2.2 okBehavior⟩

/-! ## Totality of execute (C4) -/

/-- Every scheduler step appends exactly one status, for the processed
module id. -/
theorem runStep_statuses (g : ExecutionGraph) (behavior : Behavior)
    (ctx : Ctx) (id : String) :
    ∃ st, (runStep g behavior ctx id).statuses = ctx.statuses ++ [(id, st)] := by
  unfold runStep
  by_cases h1 : (g.connections.filter (fun c => c.target == id)).any
      (fun c => isBad (statusLookup ctx.statuses c.source))
  · rw [if_pos h1]
    exact ⟨_, rfl⟩
  · rw [if_neg h1]
    cases g.nodes.find? (fun n => n.1.id == id) with
    | none => exact ⟨_, rfl⟩
    | some n =>
      dsimp only
      cases validate n.2.config_schema n.1.config with
      | error e => exact ⟨_, rfl⟩
      | ok vcfg =>
        dsimp only
        cases behavior id vcfg (gatherInputs g ctx.values id) with
        | ok v => exact ⟨_, rfl⟩
        | error e => exact ⟨_, rfl⟩

/-- After driving an order through the scheduler, the status keys are
exactly the starting keys followed by the order. -/
theorem runFold_statuses (g : ExecutionGraph) (behavior : Behavior) :
    ∀ (order : List String) (ctx : Ctx),
      (order.foldl (runStep g behavior) ctx).statuses.map Prod.fst =
        ctx.statuses.map Prod.fst ++ order := by
  intro order
  induction order with
  | nil => intro ctx; simp
  | cons id order ih =>
    intro ctx
    rw [List.foldl_cons]
    obtain ⟨st, hst⟩ := runStep_statuses g behavior ctx id
    rw [ih (runStep g behavior ctx id), hst]
    simp

/-- An id among the status keys has a status. -/
theorem statusLookup_isSome {sts : List (String × ModStatus)} {id : String}
    (h : id ∈ sts.map Prod.fst) : ∃ st, statusLookup sts id = some st := by
  obtain ⟨p, hp, hpe⟩ := List.mem_map.mp h
  have hsome : (sts.find? (fun q => q.1 == id)).isSome := by
    rw [List.find?_isSome]
    exact ⟨p, hp, by simp [hpe]⟩
  cases hf : sts.find? (fun q => q.1 == id) with
  | none => rw [hf] at hsome; simp at hsome
  | some q => exact ⟨q.2, by simp [statusLookup, hf]⟩

/-- A clean Kahn pass extracts a permutation of the nodes. -/
theorem kahn_perm_of_leftover {edges : List (String × String)}
    {nodes : List String} (h : (kahn edges nodes).2 = []) :
    ((kahn edges nodes).1).Perm nodes := by
  have hp := kahnAux_perm edges nodes.length nodes
  rw [kahn] at h
  rw [kahn]
  rw [h, List.append_nil] at hp
  exact hp

/-- C4: for every workflow that passes graph build, execute returns a
RunResult carrying a status for every module of the workflow — it never
raises — and when the workflow has no Output-category module the outputs
mapping is empty rather than an error. -/
theorem execute_total (reg : List ModuleType) (wf : Workflow)
    (behavior : Behavior) (g : ExecutionGraph)
    (hb : build reg wf = Except.ok g) :
    ∃ res, execute reg wf behavior = Except.ok res ∧
      (∀ m ∈ wf.modules, ∃ st, statusLookup res.statuses m.id = some st) ∧
      ((∀ m ∈ wf.modules, ∀ t, resolve reg m.type = some t →
          t.category ≠ Category.output) → res.outputs = []) := by
  obtain ⟨hnodes, hconn, horder, hleft, hd, ht⟩ := build_ok_inversion hb
  refine ⟨mkRunResult g (runGraph g behavior), ?_, ?_, ?_⟩
  · unfold execute
    rw [hb]
  · intro m hm
    have hidm : m.id ∈ moduleIds wf := List.mem_map.mpr ⟨m, hm, rfl⟩
    have hIn : m.id ∈ g.order := by
      rw [horder]
      exact ((kahn_perm_of_leftover hleft).mem_iff).mpr hidm
    have hkeys : (runGraph g behavior).statuses.map Prod.fst = g.order := by
      have h2 := runFold_statuses g behavior g.order
        { statuses := [], values := [], executed := [] }
      simpa [runGraph] using h2
    have hmem : m.id ∈ (runGraph g behavior).statuses.map Prod.fst := by
      rw [hkeys]
      exact hIn
    exact statusLookup_isSome hmem
  · intro hnone
    unfold mkRunResult
    dsimp only
    rw [List.filterMap_eq_nil]
    intro n hn
    rw [hnodes] at hn
    obtain ⟨m, hm, hmap⟩ := List.mem_filterMap.mp hn
    cases hres : resolve reg m.type with
    | none => rw [hres] at hmap; simp at hmap
    | some t =>
      rw [hres] at hmap
      have hmn : (m, t) = n := by simpa using hmap
      have hcat := hnone m hm t hres
      rw [← hmn]
      simp [hcat]

/-- Closed witness for C4 on a workflow with no Output-category module. -/
theorem execute_total_witness :
    ∃ res, execute logicOnlyRegistry wfABCD okBehavior = Except.ok res ∧
      (∀ m ∈ wfABCD.modules, ∃ st, statusLookup res.statuses m.id = some st) ∧
      ((∀ m ∈ wfABCD.modules, ∀ t, resolve logicOnlyRegistry m.type = some t →
          t.category ≠ Category.output) → res.outputs = []) :=
  execute_total logicOnlyRegistry wfABCD okBehavior
    { nodes := wfABCD.modules.filterMap
        (fun m => (resolve logicOnlyRegistry m.type).map (fun t => (m, t))),
      connections := wfABCD.connections,
      order := (kahn (wfEdges wfABCD) (moduleIds wfABCD)).1 }
    (by decide)

/-! ## Failure isolation (C3): supporting lemmas -/

/-- A found status entry is a member of the status list. -/
theorem statusLookup_mem {sts : List (String × ModStatus)} {id : String}
    {st : ModStatus} (h : statusLookup sts id = some st) : (id, st) ∈ sts := by
  unfold statusLookup at h
  cases hf : sts.find? (fun p => p.1 == id) with
  | none => rw [hf] at h; simp at h
  | some q =>
    rw [hf] at h
    have hq := List.find?_some hf
    have hqm := List.mem_of_find?_eq_some hf
    simp only [Option.map_some', Option.some.injEq] at h
    simp only [beq_iff_eq] at hq
    have hqe : q = (id, st) := by
      cases q
      simp only at hq h
      rw [hq, h]
    rw [← hqe]
    exact hqm

/-- indexOf skips a whole prefix that misses the element. -/
theorem indexOf_append_not_mem {l1 l2 : List String} {a : String}
    (h : a ∉ l1) : (l1 ++ l2).indexOf a = l1.length + l2.indexOf a := by
  induction l1 with
  | nil => simp
  | cons b l1 ih =>
    have hb : b ≠ a := by
      rintro rfl
      exact h (by simp)
    have h2 : a ∉ l1 := fun hm => h (List.mem_cons_of_mem b hm)
    rw [List.cons_append, List.indexOf_cons_ne _ hb, ih h2]
    simp [Nat.succ_add]

/-- In a duplicate-free topologically sorted order, every in-edge source
of the module now being processed was processed earlier. -/
theorem pred_mem_done {wf : Workflow} {ord done rest : List String}
    {id : String}
    (horder : ord = done ++ id :: rest) (hnodup : ord.Nodup)
    (htopo : ∀ c ∈ wf.connections,
        ord.indexOf c.source < ord.indexOf c.target)
    (c : ConnectionRecord) (hc : c ∈ wf.connections) (hct : c.target = id) :
    c.source ∈ done := by
  by_contra hns
  have h1 : id ∉ done := by
    rw [horder] at hnodup
    have hdisj := (List.nodup_append.mp hnodup).2.2
    intro hmem
    exact hdisj hmem (by simp)
  have hidx_id : ord.indexOf id = done.length := by
    rw [horder, indexOf_append_not_mem h1, List.indexOf_cons_self]
    omega
  have hidx_src : done.length ≤ ord.indexOf c.source := by
    rw [horder, indexOf_append_not_mem hns]
    omega
  have hlt := htopo c hc
  rw [hct, hidx_id] at hlt
  omega

/-- A node reachable from itself in one-or-more edge steps yields a
cycle witness. -/
theorem hasCycle_of_transGen_self {edges : List (String × String)}
    {f : String}
    (h : Relation.TransGen (fun u v => (u, v) ∈ edges) f f) :
    HasCycle edges := by
  obtain ⟨b, hfb, hbf⟩ := Relation.TransGen.head'_iff.mp h
  obtain ⟨l, hch, hlast⟩ := List.exists_chain_of_relationReflTransGen hbf
  refine ⟨f, b :: l, by simp, List.Chain.cons hfb hch, ?_⟩
  rw [List.getLast?_eq_getLast (b :: l) (by simp)]
  rw [hlast]

/-- The nodes of a cycle survive into the Kahn leftover, which is hence
nonempty. -/
theorem cycle_stays_leftover {wf : Workflow} {a : String} {l : List String}
    (hd : ∀ c ∈ wf.connections,
        c.source ∈ moduleIds wf ∧ c.target ∈ moduleIds wf)
    (hch : List.Chain (fun u v => (u, v) ∈ wfEdges wf) a l)
    (hlast : l.getLast? = some a) :
    (kahn (wfEdges wf) (moduleIds wf)).2 ≠ [] := by
  have hS := cycle_member_pred hch hlast
  have hSin : ∀ n ∈ a :: l, n ∈ moduleIds wf := by
    intro n hn
    obtain ⟨p, hp, hpe⟩ := hS n hn
    obtain ⟨c, hc, hceq⟩ := List.mem_map.mp hpe
    have hn2 : c.target = n := congrArg Prod.snd hceq
    have := (hd c hc).2
    rwa [hn2] at this
  have hstay := kahnAux_cycle_stays (wfEdges wf) (a :: l) hS
    (moduleIds wf).length (moduleIds wf) hSin
  intro h0
  have ha := hstay a (by simp)
  rw [kahn] at h0
  rw [h0] at ha
  simp at ha

/-- A workflow that builds successfully has no module on a directed
cycle: reachability from a module back to itself is impossible. -/
theorem acyclic_of_build_ok {reg : List ModuleType} {wf : Workflow}
    {g : ExecutionGraph} (hb : build reg wf = Except.ok g) (f : String) :
    ¬ Relation.TransGen (fun u v => (u, v) ∈ wfEdges wf) f f := by
  intro htg
  obtain ⟨_, _, _, hleft, hd, _⟩ := build_ok_inversion hb
  obtain ⟨a, l, hl, hch, hlast⟩ := hasCycle_of_transGen_self htg
  exact cycle_stays_leftover hd hch hlast hleft

/-- One scheduler step preserves the failure-isolation invariant: the
processed module is marked Skipped without executor invocation exactly
when it lies strictly downstream of the failing module, is marked Failed
when it is the failing module, and otherwise executes and succeeds. -/
theorem runStep_isolation (wf : Workflow) (g : ExecutionGraph)
    (behavior : Behavior) (f errMsg : String) (ctx : Ctx)
    (done rest : List String) (id : String)
    (hconn : g.connections = wf.connections)
    (horder : g.order = done ++ id :: rest)
    (hnodup : g.order.Nodup)
    (htopo : ∀ c ∈ wf.connections,
        g.order.indexOf c.source < g.order.indexOf c.target)
    (hfind : ∀ i ∈ g.order, ∃ n,
        g.nodes.find? (fun x => x.1.id == i) = some n ∧
        n ∈ g.nodes ∧ n.1.id = i)
    (hval : ∀ n ∈ g.nodes, ∃ out,
        validate n.2.config_schema n.1.config = Except.ok out)
    (hfail : ∀ cfg ins, behavior f cfg ins = Except.error errMsg)
    (hok : ∀ m cfg ins, m ≠ f → ∃ v, behavior m cfg ins = Except.ok v)
    (hacyc : ¬ Relation.TransGen (fun u v => (u, v) ∈ wfEdges wf) f f)
    (hInv : IsolationInv f errMsg
        (Relation.TransGen (fun u v => (u, v) ∈ wfEdges wf) f) ctx done) :
    IsolationInv f errMsg
        (Relation.TransGen (fun u v => (u, v) ∈ wfEdges wf) f)
        (runStep g behavior ctx id) (done ++ [id]) := by
  unfold IsolationInv at hInv ⊢
  obtain ⟨hkeys, hspec, hexec, hcomp⟩ := hInv
  have hskip_iff :
      ((g.connections.filter (fun c => c.target == id)).any
        (fun c => isBad (statusLookup ctx.statuses c.source)) = true) ↔
      (id ≠ f ∧ Relation.TransGen (fun u v => (u, v) ∈ wfEdges wf) f id) := by
    constructor
    · intro hany
      rw [List.any_eq_true] at hany
      obtain ⟨c, hcf, hbad⟩ := hany
      have hcmem : c ∈ g.connections := List.mem_of_mem_filter hcf
      rw [hconn] at hcmem
      have hct : c.target = id := by
        have := List.of_mem_filter hcf
        simpa using this
      cases hl : statusLookup ctx.statuses c.source with
      | none => rw [hl] at hbad; simp [isBad] at hbad
      | some st =>
        rw [hl] at hbad
        have hpm := statusLookup_mem hl
        have htriple := hspec c.source st hpm
        have hedge : (c.source, id) ∈ wfEdges wf := by
          rw [← hct]
          exact List.mem_map.mpr ⟨c, hcmem, rfl⟩
        by_cases hsf : c.source = f
        · have hdown : Relation.TransGen
              (fun u v => (u, v) ∈ wfEdges wf) f id :=
            Relation.TransGen.single (hsf ▸ hedge)
          refine ⟨?_, hdown⟩
          rintro rfl
          exact hacyc hdown
        · by_cases hds : Relation.TransGen
              (fun u v => (u, v) ∈ wfEdges wf) f c.source
          · have hdown := hds.tail hedge
            refine ⟨?_, hdown⟩
            rintro rfl
            exact hacyc hdown
          · obtain ⟨v, hv⟩ := htriple.2.2 hsf hds
            rw [hv] at hbad
            simp [isBad] at hbad
    · rintro ⟨hidf, hdown⟩
      obtain ⟨b, hfb, hbid⟩ := Relation.TransGen.tail'_iff.mp hdown
      obtain ⟨c, hcmem, hceq⟩ := List.mem_map.mp hbid
      have hcs : c.source = b := congrArg Prod.fst hceq
      have hct : c.target = id := congrArg Prod.snd hceq
      have hbdone : c.source ∈ done :=
        pred_mem_done horder hnodup htopo c hcmem hct
      have hbkeys : c.source ∈ ctx.statuses.map Prod.fst := by
        rw [hkeys]
        exact hbdone
      obtain ⟨st, hst⟩ := statusLookup_isSome hbkeys
      have hpm := statusLookup_mem hst
      have htriple := hspec c.source st hpm
      have hbad : isBad (some st) = true := by
        rcases Relation.reflTransGen_iff_eq_or_transGen.mp hfb with hbf | hbf
        · have hsteq : st = ModStatus.failed errMsg := htriple.1 (by rw [hcs, hbf])
          rw [hsteq]
          rfl
        · by_cases hsf : c.source = f
          · have hsteq : st = ModStatus.failed errMsg := htriple.1 hsf
            rw [hsteq]
            rfl
          · have hsteq : st = ModStatus.skipped "upstreamFailure" :=
              htriple.2.1 hsf (by rw [hcs]; exact hbf)
            rw [hsteq]
            rfl
      rw [List.any_eq_true]
      refine ⟨c, ?_, by rw [hst]; exact hbad⟩
      rw [List.mem_filter]
      exact ⟨by rw [hconn]; exact hcmem, by simp [hct]⟩
  unfold runStep
  by_cases hany : (g.connections.filter (fun c => c.target == id)).any
      (fun c => isBad (statusLookup ctx.statuses c.source)) = true
  · rw [if_pos hany]
    obtain ⟨hidf, hdown⟩ := hskip_iff.mp hany
    refine ⟨by simp [hkeys], ?_, ?_, ?_⟩
    · intro p st hpst
      rcases List.mem_append.mp hpst with hp | hp
      · exact hspec p st hp
      · have hpe : p = id ∧ st = ModStatus.skipped "upstreamFailure" := by
          simpa using hp
        obtain ⟨rfl, rfl⟩ := hpe
        refine ⟨?_, fun _ _ => rfl, ?_⟩
        · intro hpf
          exact absurd hpf hidf
        · intro _ hnd
          exact absurd hdown hnd
    · exact hexec
    · intro p hp hpf hnd
      rcases List.mem_append.mp hp with hp2 | hp2
      · exact hcomp p hp2 hpf hnd
      · have hpe : p = id := by simpa using hp2
        subst hpe
        exact absurd hdown hnd
  · rw [if_neg hany]
    have hcase : id = f ∨
        ¬ Relation.TransGen (fun u v => (u, v) ∈ wfEdges wf) f id := by
      by_cases h1 : id = f
      · exact Or.inl h1
      · by_cases h2 : Relation.TransGen (fun u v => (u, v) ∈ wfEdges wf) f id
        · exact absurd (hskip_iff.mpr ⟨h1, h2⟩) hany
        · exact Or.inr h2
    obtain ⟨n, hfn, hnmem, hnid⟩ := hfind id (by rw [horder]; simp)
    rw [hfn]
    dsimp only
    obtain ⟨out, hvout⟩ := hval n hnmem
    rw [hvout]
    dsimp only
    by_cases hidf : id = f
    · subst hidf
      rw [hfail out (gatherInputs g ctx.values id)]
      dsimp only
      refine ⟨by simp [hkeys], ?_, ?_, ?_⟩
      · intro p st hpst
        rcases List.mem_append.mp hpst with hp | hp
        · exact hspec p st hp
        · have hpe : p = id ∧ st = ModStatus.failed errMsg := by simpa using hp
          obtain ⟨rfl, rfl⟩ := hpe
          refine ⟨fun _ => rfl, ?_, ?_⟩
          · intro hpf _
            exact absurd rfl hpf
          · intro hpf _
            exact absurd rfl hpf
      · intro p hp
        rcases List.mem_append.mp hp with hp2 | hp2
        · exact hexec p hp2
        · have hpe : p = id := by simpa using hp2
          subst hpe
          exact Or.inl rfl
      · intro p hp hpf hnd
        rcases List.mem_append.mp hp with hp2 | hp2
        · exact List.mem_append.mpr (Or.inl (hcomp p hp2 hpf hnd))
        · have hpe : p = id := by simpa using hp2
          subst hpe
          exact absurd rfl hpf
    · have hnd : ¬ Relation.TransGen (fun u v => (u, v) ∈ wfEdges wf) f id := by
        rcases hcase with h1 | h1
        · exact absurd h1 hidf
        · exact h1
      obtain ⟨v, hv⟩ := hok id out (gatherInputs g ctx.values id) hidf
      rw [hv]
      dsimp only
      refine ⟨by simp [hkeys], ?_, ?_, ?_⟩
      · intro p st hpst
        rcases List.mem_append.mp hpst with hp | hp
        · exact hspec p st hp
        · have hpe : p = id ∧ st = ModStatus.succeeded v := by simpa using hp
          obtain ⟨rfl, rfl⟩ := hpe
          refine ⟨?_, ?_, fun _ _ => ⟨v, rfl⟩⟩
          · intro hpf
            exact absurd hpf hidf
          · intro _ hdn
            exact absurd hdn hnd
      · intro p hp
        rcases List.mem_append.mp hp with hp2 | hp2
        · exact hexec p hp2
        · have hpe : p = id := by simpa using hp2
          subst hpe
          exact Or.inr hnd
      · intro p hp hpf hnd2
        rcases List.mem_append.mp hp with hp2 | hp2
        · exact List.mem_append.mpr (Or.inl (hcomp p hp2 hpf hnd2))
        · have hpe : p = id := by simpa using hp2
          subst hpe
          exact List.mem_append.mpr (Or.inr (by simp))

/-- The failure-isolation invariant carries through a whole run suffix. -/
theorem runFold_isolation (wf : Workflow) (g : ExecutionGraph)
    (behavior : Behavior) (f errMsg : String)
    (hconn : g.connections = wf.connections)
    (hnodup : g.order.Nodup)
    (htopo : ∀ c ∈ wf.connections,
        g.order.indexOf c.source < g.order.indexOf c.target)
    (hfind : ∀ i ∈ g.order, ∃ n,
        g.nodes.find? (fun x => x.1.id == i) = some n ∧
        n ∈ g.nodes ∧ n.1.id = i)
    (hval : ∀ n ∈ g.nodes, ∃ out,
        validate n.2.config_schema n.1.config = Except.ok out)
    (hfail : ∀ cfg ins, behavior f cfg ins = Except.error errMsg)
    (hok : ∀ m cfg ins, m ≠ f → ∃ v, behavior m cfg ins = Except.ok v)
    (hacyc : ¬ Relation.TransGen (fun u v => (u, v) ∈ wfEdges wf) f f) :
    ∀ (rest done : List String) (ctx : Ctx),
      g.order = done ++ rest →
      IsolationInv f errMsg
        (Relation.TransGen (fun u v => (u, v) ∈ wfEdges wf) f) ctx done →
      IsolationInv f errMsg
        (Relation.TransGen (fun u v => (u, v) ∈ wfEdges wf) f)
        (rest.foldl (runStep g behavior) ctx) (done ++ rest) := by
  intro rest
  induction rest with
  | nil =>
    intro done ctx h hi
    simpa using hi
  | cons id rest ih =>
    intro done ctx h hi
    rw [List.foldl_cons]
    have hstep := runStep_isolation wf g behavior f errMsg ctx done rest id
      hconn h hnodup htopo hfind hval hfail hok hacyc hi
    have hres := ih (done ++ [id]) (runStep g behavior ctx id)
      (by rw [h]; simp) hstep
    simpa using hres

/-- C3: in a run where exactly one module f fails (its executor errors,
every other executor succeeds, every built module's config validates),
every module transitively depending on f is marked
Skipped(upstreamFailure) and its executor is never invoked, while every
module not depending on f executes to completion: f itself is Failed and
every other module not downstream of f is Succeeded and was executed. -/
theorem scheduler_failure_isolation (reg : List ModuleType) (wf : Workflow)
    (behavior : Behavior) (g : ExecutionGraph) (f errMsg : String)
    (hb : build reg wf = Except.ok g)
    (hnodup : (moduleIds wf).Nodup)
    (hfail : ∀ cfg ins, behavior f cfg ins = Except.error errMsg)
    (hok : ∀ m cfg ins, m ≠ f → ∃ v, behavior m cfg ins = Except.ok v)
    (hval : ∀ n ∈ g.nodes, ∃ out,
        validate n.2.config_schema n.1.config = Except.ok out) :
    ∃ res, execute reg wf behavior = Except.ok res ∧
      ∀ m ∈ moduleIds wf,
        (m = f → statusLookup res.statuses m =
            some (ModStatus.failed errMsg)) ∧
        (m ≠ f → Relation.TransGen (fun u v => (u, v) ∈ wfEdges wf) f m →
            statusLookup res.statuses m =
              some (ModStatus.skipped "upstreamFailure") ∧
            m ∉ executedModules reg wf behavior) ∧
        (m ≠ f → ¬ Relation.TransGen (fun u v => (u, v) ∈ wfEdges wf) f m →
            (∃ v, statusLookup res.statuses m =
                some (ModStatus.succeeded v)) ∧
            m ∈ executedModules reg wf behavior) := by
  obtain ⟨hnodes, hconn, horder, hleft, hd, ht⟩ := build_ok_inversion hb
  have hacyc := acyclic_of_build_ok hb f
  have hordperm : g.order.Perm (moduleIds wf) := by
    rw [horder]
    exact kahn_perm_of_leftover hleft
  have hordnodup : g.order.Nodup := hordperm.symm.nodup hnodup
  have htopo : ∀ c ∈ wf.connections,
      g.order.indexOf c.source < g.order.indexOf c.target := by
    intro c hc
    have he : (c.source, c.target) ∈ wfEdges wf := List.mem_map.mpr ⟨c, hc, rfl⟩
    rw [horder]
    exact kahnAux_topo (wfEdges wf) (moduleIds wf).length (moduleIds wf)
      c.source c.target hleft he (hd c hc).1 (hd c hc).2
  have hfind : ∀ i ∈ g.order, ∃ n,
      g.nodes.find? (fun x => x.1.id == i) = some n ∧
      n ∈ g.nodes ∧ n.1.id = i := by
    intro i hi
    have hiid : i ∈ moduleIds wf := hordperm.mem_iff.mp hi
    obtain ⟨m, hm, hmid⟩ := List.mem_map.mp hiid
    have hres := ht m hm
    obtain ⟨t, htt⟩ := Option.isSome_iff_exists.mp hres
    have hmem : (m, t) ∈ g.nodes := by
      rw [hnodes]
      refine List.mem_filterMap.mpr ⟨m, hm, ?_⟩
      rw [htt]
      rfl
    have hsome : (g.nodes.find? (fun x => x.1.id == i)).isSome := by
      rw [List.find?_isSome]
      exact ⟨(m, t), hmem, by simp [hmid]⟩
    cases hf2 : g.nodes.find? (fun x => x.1.id == i) with
    | none => rw [hf2] at hsome; simp at hsome
    | some n =>
      refine ⟨n, rfl, List.mem_of_find?_eq_some hf2, ?_⟩
      have hps := List.find?_some hf2
      simpa using hps
  have hInv0 : IsolationInv f errMsg
      (Relation.TransGen (fun u v => (u, v) ∈ wfEdges wf) f)
      { statuses := [], values := [], executed := [] } [] := by
    refine ⟨rfl, ?_, ?_, ?_⟩
    · intro p st hpst
      simp at hpst
    · intro p hp
      simp at hp
    · intro p hp
      simp at hp
  have hfold := runFold_isolation wf g behavior f errMsg hconn hordnodup htopo
    hfind hval hfail hok hacyc g.order [] _ (by simp) hInv0
  have hfold2 : IsolationInv f errMsg
      (Relation.TransGen (fun u v => (u, v) ∈ wfEdges wf) f)
      (runGraph g behavior) g.order := by
    simpa [runGraph] using hfold
  obtain ⟨hkeys, hspec, hexec, hcomp⟩ := hfold2
  refine ⟨mkRunResult g (runGraph g behavior), by unfold execute; rw [hb], ?_⟩
  intro m hm
  have hmord : m ∈ g.order := hordperm.mem_iff.mpr hm
  have hstat : (mkRunResult g (runGraph g behavior)).statuses =
      (runGraph g behavior).statuses := rfl
  have hkm : m ∈ (runGraph g behavior).statuses.map Prod.fst := by
    rw [hkeys]
    exact hmord
  obtain ⟨st, hstl⟩ := statusLookup_isSome hkm
  have hpm := statusLookup_mem hstl
  have htriple := hspec m st hpm
  have hexecEq : executedModules reg wf behavior =
      (runGraph g behavior).executed := by
    unfold executedModules
    rw [hb]
  refine ⟨?_, ?_, ?_⟩
  · intro hmf
    rw [hstat, hstl, htriple.1 hmf]
  · intro hmf hdn
    refine ⟨?_, ?_⟩
    · rw [hstat, hstl, htriple.2.1 hmf hdn]
    · rw [hexecEq]
      intro hmem
      rcases hexec m hmem with h1 | h1
      · exact hmf h1
      · exact h1 hdn
  · intro hmf hdn
    refine ⟨?_, ?_⟩
    · obtain ⟨v, hv⟩ := htriple.2.2 hmf hdn
      exact ⟨v, by rw [hstat, hstl, hv]⟩
    · rw [hexecEq]
      exact hcomp m hmord hmf hdn

/-- A node with no incoming edge is unreachable through edge steps. -/
theorem not_transGen_no_incoming {edges : List (String × String)}
    {a c : String} (h : ∀ p, (p, c) ∉ edges) :
    ¬ Relation.TransGen (fun u v => (u, v) ∈ edges) a c := by
  intro htg
  obtain ⟨b, _, hbc⟩ := Relation.TransGen.tail'_iff.mp htg
  exact h b hbc

/-- Closed witness for C3: on the disjoint graph A → B, C → D with A
failing, A is Failed, B is Skipped(upstreamFailure) and never executed,
while C and D appear in the RunResult with Succeeded status. -/
theorem scheduler_failure_isolation_witness :
    ∃ res, execute logicOnlyRegistry wfABCD failABehavior = Except.ok res ∧
      statusLookup res.statuses "A" = some (ModStatus.failed "boom") ∧
      statusLookup res.statuses "B" =
        some (ModStatus.skipped "upstreamFailure") ∧
      "B" ∉ executedModules logicOnlyRegistry wfABCD failABehavior ∧
      (∃ v, statusLookup res.statuses "C" = some (ModStatus.succeeded v)) ∧
      (∃ v, statusLookup res.statuses "D" = some (ModStatus.succeeded v)) := by
  have hnC : ¬ Relation.TransGen
      (fun u v => (u, v) ∈ wfEdges wfABCD) "A" "C" :=
    not_transGen_no_incoming (by intro p hp; simp [wfEdges, wfABCD] at hp)
  have hnD : ¬ Relation.TransGen
      (fun u v => (u, v) ∈ wfEdges wfABCD) "A" "D" := by
    intro htg
    obtain ⟨b, hab, hbd⟩ := Relation.TransGen.tail'_iff.mp htg
    have hbC : b = "C" := by
      simpa [wfEdges, wfABCD] using hbd
    subst hbC
    rcases Relation.reflTransGen_iff_eq_or_transGen.mp hab with h1 | h1
    · exact absurd h1 (by decide)
    · exact hnC h1
  obtain ⟨res, hexe, hall⟩ := scheduler_failure_isolation logicOnlyRegistry
    wfABCD failABehavior
    { nodes := wfABCD.modules.filterMap
        (fun m => (resolve logicOnlyRegistry m.type).map (fun t => (m, t))),
      connections := wfABCD.connections,
      order := (kahn (wfEdges wfABCD) (moduleIds wfABCD)).1 }
    "A" "boom"
    (by decide)
    (by decide)
    (fun _ _ => rfl)
    (by
      intro m cfg ins hne
      exact ⟨Value.vStr "ok", by simp [failABehavior, hne]⟩)
    (by
      intro n hn
      obtain ⟨m, hm, hmap⟩ := List.mem_filterMap.mp hn
      cases hres : resolve logicOnlyRegistry m.type with
      | none => rw [hres] at hmap; simp at hmap
      | some t =>
        rw [hres] at hmap
        have hnm : (m, t) = n := by simpa using hmap
        have htmem : t ∈ logicOnlyRegistry := List.mem_of_find?_eq_some hres
        have hteq : t = ⟨"t", Category.logic, "T", "", []⟩ := by
          simpa [logicOnlyRegistry] using htmem
        rw [← hnm, hteq]
        exact ⟨_, rfl⟩)
  refine ⟨res, hexe, ?_, ?_, ?_, ?_, ?_⟩
  · exact (hall "A" (by decide)).1 rfl
  · exact ((hall "B" (by decide)).2.1 (by decide)
      (Relation.TransGen.single (by decide))).1
  · exact ((hall "B" (by decide)).2.1 (by decide)
      (Relation.TransGen.single (by decide))).2
  · exact ((hall "C" (by decide)).2.2 (by decide) hnC).1
  · exact ((hall "D" (by decide)).2.2 (by decide) hnD).1
